import Mathlib

/-!
# Verification of the danawa_pc_parts_crawler parsing & enrichment pipeline

Shallow embedding of the rule-driven parsing code in `src/parsers/parser.py`,
the enrichment code in `src/parsers/mapping.py` and the cleaning code in
`src/parsers/cleaner.py`, together with theorems settling the specified
behavioural claims.

Python string primitives (`strip`, `split`, `replace`, containment, `lower`,
`endswith`, `find`, `rfind`, `int(...)`) are modelled by executable functions
over `List Char` so that every definition can be evaluated by the kernel on
concrete inputs.  Python regular-expression objects (external library code)
are modelled as abstract match functions supplied inside the rule data.
-/

namespace Danawa

/-! ## Python string primitives -/

/-- Rebuild a `String` from its character list. -/
def strOf (l : List Char) : String := ⟨l⟩

/-- Python `sub in s` on character lists: some tail of the haystack starts
with the needle. -/
def containsL (sub : List Char) : List Char → Bool
  | [] => sub.isEmpty
  | c :: rest => sub.isPrefixOf (c :: rest) || containsL sub rest

/-- Python `sub in s` for strings. -/
def strContains (s sub : String) : Bool := containsL sub.data s.data

/-- Python `str.strip()` on a character list. -/
def stripL (l : List Char) : List Char :=
  ((l.dropWhile Char.isWhitespace).reverse.dropWhile Char.isWhitespace).reverse

/-- Python `str.strip()`. -/
def pyStrip (s : String) : String := strOf (stripL s.data)

/-- Python `str.lower()` (ASCII case folding, as for the data at hand). -/
def pyLower (s : String) : String := strOf (s.data.map Char.toLower)

/-- Python `str.endswith(suffix)`. -/
def pyEndsWith (s suf : String) : Bool := suf.data.reverse.isPrefixOf s.data.reverse

/-- Split a character list at every occurrence of the (non-empty) separator,
Python `str.split(sep)` semantics.  `fuel` bounds the recursion; it is
instantiated with the input length, which always suffices. -/
def splitOnL (sep : List Char) : Nat → List Char → List Char → List (List Char)
  | 0, l, acc => [acc.reverse ++ l]
  | _ + 1, [], acc => [acc.reverse]
  | fuel + 1, c :: rest, acc =>
    if sep.isPrefixOf (c :: rest) then
      acc.reverse :: splitOnL sep fuel ((c :: rest).drop sep.length) []
    else
      splitOnL sep fuel rest (c :: acc)

/-- Python `s.split(sep)` for a non-empty literal separator. -/
def pySplit (s sep : String) : List String :=
  if sep.data.isEmpty then [s]
  else (splitOnL sep.data s.data.length s.data []).map strOf

/-- Python `s.split(sep, 1)` restricted to a single-character separator:
the text before the first occurrence and the text after it. -/
def splitFirstChar (sep : Char) : List Char → Option (List Char × List Char)
  | [] => none
  | c :: rest =>
    if c = sep then some ([], rest)
    else (splitFirstChar sep rest).map (fun p => (c :: p.1, p.2))

/-- Python `str.split()` (whitespace split, empty pieces discarded). -/
def wsTokensAux : List Char → List Char → List (List Char)
  | [], acc => if acc.isEmpty then [] else [acc.reverse]
  | c :: rest, acc =>
    if c.isWhitespace then
      if acc.isEmpty then wsTokensAux rest [] else acc.reverse :: wsTokensAux rest []
    else wsTokensAux rest (c :: acc)

/-- Python `s.split()` for strings. -/
def wsTokens (s : String) : List String := (wsTokensAux s.data []).map strOf

/-- Python `str.replace(pat, rep)` on character lists (all non-overlapping
occurrences, left to right); `fuel` is instantiated with the input length. -/
def replaceL (pat rep : List Char) : Nat → List Char → List Char
  | 0, l => l
  | _ + 1, [] => []
  | fuel + 1, c :: rest =>
    if pat.isPrefixOf (c :: rest) then
      rep ++ replaceL pat rep fuel ((c :: rest).drop pat.length)
    else
      c :: replaceL pat rep fuel rest

/-- Python `s.replace(pat, rep)` for a non-empty literal pattern. -/
def pyReplace (s pat rep : String) : String :=
  if pat.data.isEmpty then s
  else strOf (replaceL pat.data rep.data s.data.length s.data)

/-- Python `str.find(sub)` as an `Option` (index of the first occurrence). -/
def findSub? (sub : List Char) : List Char → Option Nat
  | [] => if sub.isEmpty then some 0 else none
  | c :: rest =>
    if sub.isPrefixOf (c :: rest) then some 0
    else (findSub? sub rest).map (· + 1)

/-- Python `str.rfind(sub)` as an `Option` (index of the last occurrence). -/
def rfindSub? (sub hay : List Char) : Option Nat :=
  ((List.range (hay.length + 1)).filter (fun i => sub.isPrefixOf (hay.drop i))).getLast?

/-- Digit run to a natural number. -/
def digitsToNat (l : List Char) : Nat :=
  l.foldl (fun n c => n * 10 + (c.toNat - 48)) 0

/-- Python `int(s)` for decimal integer literals: surrounding whitespace is
tolerated, an optional sign is followed by a non-empty digit run; anything
else raises, modelled as `none`. -/
def pyInt? (s : String) : Option Int :=
  match stripL s.data with
  | [] => none
  | '-' :: ds =>
    if ds ≠ [] ∧ ds.all Char.isDigit then some (-(digitsToNat ds : Int)) else none
  | '+' :: ds =>
    if ds ≠ [] ∧ ds.all Char.isDigit then some (digitsToNat ds : Int) else none
  | ds =>
    if ds.all Char.isDigit then some (digitsToNat ds : Int) else none

/-! ## Dictionaries

Python `dict` is modelled, for lookup purposes, as an association list with
the most recent write at the head: assignment prepends, lookup takes the
first hit, so lookup sees exactly the last value written to a key. -/

/-- First-hit association-list lookup. -/
def alistGet {κ α : Type} [DecidableEq κ] : List (κ × α) → κ → Option α
  | [], _ => none
  | (k', v) :: rest, k => if k' = k then some v else alistGet rest k

/-- A parsed attribute value: scalar string or list of strings. -/
inductive SpecVal where
  | s : String → SpecVal
  | l : List String → SpecVal
deriving DecidableEq, Repr

/-- The flat attribute dictionary produced by parsing. -/
abbrev Dict := List (String × SpecVal)

/-- Dictionary read. -/
def dictGet (d : Dict) (k : String) : Option SpecVal := alistGet d k

/-! ## `GenericParser._preprocess`, `_split_segments` (parser.py 97–119) -/

/-- The fixed substitution table of `_preprocess`. -/
def replPairs : List (String × String) :=
  [("A/S", "AS"), ("S/W", "SW"), ("Gb/s", "Gbs"), ("MB/s", "Mbs"),
   ("싱글/다중", "싱글,다중")]

/-- First preprocessing step: apply the fixed substitution table in order. -/
def applyRepl (txt : String) : String :=
  replPairs.foldl (fun t p => pyReplace t p.1 p.2) txt

/-- Second preprocessing step: when the noise-range marker and the
`소음(` label are both present, the slashes between the label and the last
`dB` are turned into commas (`txt[:s] + txt[s:e].replace("/", ",") + txt[e:]`
with `s = txt.find("소음(")`, `e = txt.rfind("dB") + 2`). -/
def noiseStep (txt : String) : String :=
  if strContains txt "유휴/탐색" && strContains txt "소음(" then
    let l := txt.data
    let s := (findSub? "소음(".data l).getD 0
    let e := match rfindSub? "dB".data l with
      | some i => i + 2
      | none => 1
    strOf (l.take s ++ replaceL "/".data ",".data (e - s) ((l.drop s).take (e - s))
            ++ l.drop e)
  else txt

/-- The four throughput labels whose trailing colon is conditionally
removed by `_preprocess`. -/
def seqTags : List String := ["순차읽기:", "순차쓰기:", "읽기IOPS:", "쓰기IOPS:"]

/-- Third preprocessing step: replace each throughput label by itself minus
the trailing colon (`tag[:-1]`). -/
def tagStrip (txt : String) : String :=
  seqTags.foldl (fun t tag => pyReplace t tag (strOf tag.data.dropLast)) txt

/-- `GenericParser._preprocess`: substitutions, the noise-range exception,
then — only when the text contains `순차읽기` — the throughput-label
colon removal. -/
def preprocess (txt : String) : String :=
  let t1 := applyRepl txt
  let t2 := noiseStep t1
  if strContains t2 "순차읽기" then tagStrip t2 else t2

/-- Strip bracketed annotations: each `[` with a later `]` is removed together
with its content and replaced by a single space (the code joins the pieces of
`re.split(r"\[[^]]*]", spec)` with `" "`); a `[` with no closing `]` stays. -/
def stripBrackets : Nat → List Char → List Char
  | 0, l => l
  | _ + 1, [] => []
  | fuel + 1, c :: rest =>
    if c = '[' then
      match splitFirstChar ']' rest with
      | some p => ' ' :: stripBrackets fuel p.2
      | none => c :: stripBrackets fuel rest
    else c :: stripBrackets fuel rest

/-- `GenericParser._split_segments`: drop bracketed annotations, split on
`/`, trim each piece, keep the non-empty ones. -/
def splitSegments (spec : String) : List String :=
  ((pySplit (strOf (stripBrackets spec.data.length spec.data)) "/").map pyStrip).filter
    (fun s => s ≠ "")

/-! ## `GenericParser._apply_rules`, `_matches`, `_apply_pat` (parser.py 121–163) -/

/-- One `non_colon_patterns` entry.  The regular-expression fields are
abstract match functions (the regex engine is external library code):
`regex` is `re.search` returning the group accessor on a hit, `extract` is
`re.search(pat["extract"], ·)` returning capture group 1 on a hit, and
`extract_all` is `re.findall`. -/
structure Pat where
  key : String
  contains : Option String := none
  contains_any : Option (List String) := none
  endswith : Option String := none
  regex : Option (String → Option (Nat → String)) := none
  extract_all : Option (String → List String) := none
  extract : Option (String → Option String) := none
  groups : Option (List Nat) := none
  split_on : Option String := none

/-- `GenericParser._matches`: the four predicate branches joined by `any`. -/
def matchesPat (seg : String) (p : Pat) : Bool :=
  (match p.contains with
   | some sub => strContains seg sub
   | none => false) ||
  (match p.contains_any with
   | some subs => subs.any (fun c => strContains seg c)
   | none => false) ||
  (match p.endswith with
   | some suf => pyEndsWith seg suf
   | none => false) ||
  (match p.regex with
   | some r => (r seg).isSome
   | none => false)

/-- The value `GenericParser._apply_pat` writes for a matching pattern:
the `if/elif/.../else` chain over the extraction modes, including the
fall-through to the raw segment when a configured `extract` or `groups`
regex does not match. -/
def patValue (seg : String) (p : Pat) : SpecVal :=
  match p.extract_all with
  | some f => SpecVal.l (f seg)
  | none =>
    match p.extract.bind (fun f => f seg) with
    | some v => SpecVal.s v
    | none =>
      match p.groups, p.regex.bind (fun r => r seg) with
      | some gs, some m =>
        if gs.length = 1 then SpecVal.s (m (gs.headD 0)) else SpecVal.l (gs.map m)
      | _, _ =>
        match p.split_on with
        | some sep => SpecVal.l ((pySplit seg sep).map pyStrip)
        | none => SpecVal.s seg

/-- `GenericParser._apply_pat`: write the extracted value under the
pattern's key (dictionary assignment). -/
def applyPat (out : Dict) (seg : String) (p : Pat) : Dict :=
  (p.key, patValue seg p) :: out

/-- Pattern loop body of pass ② of `_apply_rules`: every matching pattern
of the list is applied, in declared order, with no short-circuit. -/
def applySegPats (out : Dict) (seg : String) (pats : List Pat) : Dict :=
  pats.foldl (fun o p => if matchesPat seg p then applyPat o seg p else o) out

/-- The per-category `spec` rules: `colon_keys` (raw label → canonical key)
and the ordered `non_colon_patterns`. -/
structure SpecRules where
  colon_keys : List (String × String) := []
  non_colon_patterns : List Pat := []

/-- Split a colon-bearing segment as `seg.split(":", 1)` does, stripping
both parts (`(t.strip() for t in seg.split(":", 1))`); `none` when the
segment has no colon. -/
def colonSplit (seg : String) : Option (String × String) :=
  (splitFirstChar ':' seg.data).map
    (fun p => (pyStrip (strOf p.1), pyStrip (strOf p.2)))

/-- Pass-① body of `_apply_rules` for one segment: a colon-bearing segment
whose trimmed label is a configured raw label writes the canonical key;
the value is the comma-split trimmed list when the raw value contains a
comma, and the trimmed scalar otherwise.  All other segments are left to
pass ② (colon segments with unknown labels contribute nothing). -/
def applyColonSeg (ck : List (String × String)) (res : Dict) (seg : String) : Dict :=
  match colonSplit seg with
  | none => res
  | some (kraw, vraw) =>
    match alistGet ck kraw with
    | none => res
    | some ek =>
      (ek,
        if strContains vraw "," then SpecVal.l ((pySplit vraw ",").map pyStrip)
        else SpecVal.s (pyStrip vraw)) :: res

/-- Pass ① of `_apply_rules`: all colon-bearing segments, in segment order. -/
def colonPass (ck : List (String × String)) (res : Dict) (segs : List String) : Dict :=
  segs.foldl (applyColonSeg ck) res

/-- Pass ② of `_apply_rules`: all colon-free segments, in segment order,
each against every positional pattern in declared order. -/
def nonColonPass (pats : List Pat) (res : Dict) (segs : List String) : Dict :=
  segs.foldl (fun o seg => if strContains seg ":" then o else applySegPats o seg pats) res

/-- `GenericParser._apply_rules`: colon pass over all segments first, then
the positional-pattern pass over all segments. -/
def applyRules (segs : List String) (rules : SpecRules) : Dict :=
  nonColonPass rules.non_colon_patterns (colonPass rules.colon_keys [] segs) segs

/-- The Segment Rule Engine as the specification describes it: a single
pass over the segments in order, each segment handled by its style —
colon-style via `colon_keys`, positional via the patterns — so that a rule
firing in a later segment always overwrites an earlier one.  Written from
the spec's words, for comparison with `applyRules`. -/
def applyRulesSpecOrder (segs : List String) (rules : SpecRules) : Dict :=
  segs.foldl
    (fun res seg =>
      if strContains seg ":" then applyColonSeg rules.colon_keys res seg
      else applySegPats res seg rules.non_colon_patterns)
    []

/-! ## `GenericParser._parse_name` (parser.py 82–89) and `parse` (69–79) -/

/-- The `group` selector of a name rule: a single capture-group index or an
ordered list of indices. -/
inductive GroupSel where
  | one : Nat → GroupSel
  | many : List Nat → GroupSel

/-- Python `" ".join(...)`. -/
def joinSpace : List String → String
  | [] => ""
  | [x] => x
  | x :: rest => x ++ " " ++ joinSpace rest

/-- Resolve a matched name rule's value from the group accessor:
`m.group(grp).strip()` for a single index,
`" ".join(m.group(i) for i in grp).strip()` for a list. -/
def resolveGroups (m : Nat → String) : GroupSel → String
  | GroupSel.one i => pyStrip (m i)
  | GroupSel.many l => pyStrip (joinSpace (l.map m))

/-- One compiled name rule: canonical key, abstract `re.search` match
function, group selector. -/
structure NameRule where
  key : String
  search : String → Option (Nat → String)
  grp : GroupSel

/-- Fold of `_parse_name` over the compiled rule list, from a given
output dictionary. -/
def nameFold (out : Dict) (rules : List NameRule) (text : String) : Dict :=
  rules.foldl
    (fun o r =>
      match r.search text with
      | some m => (r.key, SpecVal.s (resolveGroups m r.grp)) :: o
      | none => o)
    out

/-- `GenericParser._parse_name`: rules evaluated in declaration order,
each match writing its key (later rules overwrite). -/
def parseName (rules : List NameRule) (text : String) : Dict :=
  nameFold [] rules text

/-- `GenericParser._parse_spec`: preprocess, segment, apply rules. -/
def parseSpec (spec : String) (rules : SpecRules) : Dict :=
  applyRules (splitSegments (preprocess spec)) rules

/-- Per-category parser configuration (compiled name rules + spec rules). -/
structure ParserCfg where
  name_rules : List NameRule := []
  spec : SpecRules := {}

/-- One raw listing row as read from the cleaned CSV. -/
structure RawRow where
  idStr : String
  name : String
  specText : String
  imageURL : String
  productURL : String
deriving DecidableEq

/-- The flat parsed record `GenericParser.parse` returns.  `attrs` holds
the merged name- and spec-derived attributes; the spec attributes are
unpacked after the name attributes, so they win on key collision, which the
head-first dictionary realizes by concatenating the spec dictionary in
front. -/
structure ParsedFlat where
  id : Int
  attrs : Dict
  image_url : String
  product_url : String
deriving DecidableEq

/-- `GenericParser.parse` for one row of a category: `int(row["ID"])` is the
extraction step that raises on a malformed row, modelled as `Except`. -/
def parseRow (cfg : ParserCfg) (row : RawRow) : Except String ParsedFlat :=
  match pyInt? row.idStr with
  | none => Except.error row.idStr
  | some i =>
    Except.ok
      { id := i
        attrs := parseSpec row.specText cfg.spec ++ parseName cfg.name_rules row.name
        image_url := row.imageURL
        product_url := row.productURL }

/-- The `__main__` batch loop of parser.py (lines 174–182): parse each row
in order, collecting the records; there is no exception handler, so a row
whose parse raises propagates the error and ends the batch. -/
def runBatch (cfg : ParserCfg) : List RawRow → Except String (List ParsedFlat)
  | [] => Except.ok []
  | r :: rest =>
    match parseRow cfg r with
    | Except.error e => Except.error e
    | Except.ok v =>
      match runBatch cfg rest with
      | Except.error e => Except.error e
      | Except.ok vs => Except.ok (v :: vs)

/-! ## Price/stock join (mapping.py 60–76) -/

/-- One row of a price feed CSV: the already-typed `ID` column and the raw
`Price` string. -/
structure PriceRow where
  id : Int
  price : String
deriving DecidableEq

/-- Numeric coercion of the `Price` column (`pd.to_numeric` with
`errors="coerce"` on a whole-number price feed): `none` models a row that
fails to parse and is dropped from the lookup. -/
def parsePrice (s : String) : Option Int := pyInt? s

/-- `_load_price_map`: walk the feed in row order, inserting `id → price`
for every row whose price parses; rows that fail to parse are excluded
(not zeroed).  Later duplicate ids overwrite earlier ones, as in the
pandas `to_dict`. -/
def loadPriceMap (rows : List PriceRow) : List (Int × Int) :=
  rows.foldl
    (fun m r =>
      match parsePrice r.price with
      | some v => (r.id, v) :: m
      | none => m)
    []

/-- One product record as mutated by the enrichment stage. -/
structure Product where
  id : Int
  name : String
  price : Option Int := none
  in_stock : Bool := false
  spec : Dict := []
deriving DecidableEq

/-- `_update_price_stock` for one product: `price = price_map.get(id)`,
`in_stock = id in price_map`. -/
def updatePriceStock (m : List (Int × Int)) (p : Product) : Product :=
  { p with price := alistGet m p.id, in_stock := (alistGet m p.id).isSome }

/-! ## Benchmark joins (mapping.py 79–137) -/

/-- `_norm_series` applied to one string: remove the vendor/marketing
tokens, apply the localization substitutions, drop all whitespace. -/
def normName (s : String) : String :=
  let s := pyReplace (pyReplace (pyReplace s "AMD" "") "인텔" "") "시리즈2" ""
  let s := pyReplace (pyReplace (pyReplace s "Core" "코어") "Ryzen" "라이젠") "Ultra" "울트라"
  strOf (s.data.filter (fun c => !c.isWhitespace))

/-- The score-writing step shared by both benchmark attachments:
`spec.update({k: str(v) for k, v in scores.items() if v})` — zero-valued
metrics are filtered out, nonzero metrics are written as strings. -/
def updateNonzero (spec : Dict) (scores : List (String × Int)) : Dict :=
  scores.foldl
    (fun sp kv => if kv.2 ≠ 0 then (kv.1, SpecVal.s (toString kv.2)) :: sp else sp)
    spec

/-- A benchmark feed: display name plus the integer metric columns, in
feed order. -/
abbrev BenchMap := List (String × List (String × Int))

/-- `_attach_cpu_benchmarks` for one product's spec: exact lookup of the
normalized product name; on a hit the nonzero scores are written. -/
def attachCpuSpec (bm : BenchMap) (prodName : String) (spec : Dict) : Dict :=
  match alistGet bm (normName prodName) with
  | some scores => updateNonzero spec scores
  | none => spec

/-- String value of a spec attribute with `""` default
(`spec.get(key, "")` on the string-valued attributes this join reads). -/
def getStrD (spec : Dict) (key : String) : String :=
  match dictGet spec key with
  | some (SpecVal.s v) => v
  | _ => ""

/-- Match test of the GPU join loop body for one benchmark row: tokenize
the display name with parentheses removed; when the name embeds a `GB`
token the last token is the memory token and the rest, space-joined and
lowercased, is the model; otherwise the whole lowercased name is the model
with no memory constraint. -/
def gpuRowMatches (chipset memcap benchName : String) : Bool :=
  let tokens := wsTokens (pyReplace (pyReplace benchName "(" "") ")" "")
  if strContains benchName "GB" then
    pyLower (joinSpace tokens.dropLast) == chipset && tokens.getLastD "" == memcap
  else
    pyLower benchName == chipset

/-- The GPU join scan: first benchmark row, in feed order, matching the
record's chipset and memory capacity (the `for ... break` loop). -/
def gpuFind (bm : BenchMap) (chipset memcap : String) : Option (List (String × Int)) :=
  match bm with
  | [] => none
  | r :: rest =>
    if gpuRowMatches chipset memcap r.1 then some r.2 else gpuFind rest chipset memcap

/-- `_attach_gpu_benchmarks` for one product's spec: derive chipset
(stripped, lowercased) and memory capacity (stripped) from the spec, scan
the feed, and on the first hit write its nonzero scores. -/
def attachGpuSpec (bm : BenchMap) (spec : Dict) : Dict :=
  let chipset := pyLower (pyStrip (getStrD spec "chipset"))
  let memcap := pyStrip (getStrD spec "memory_capacity")
  match gpuFind bm chipset memcap with
  | some scores => updateNonzero spec scores
  | none => spec

/-! ## Cleaning filter (cleaner.py 48–88) -/

/-- One raw CSV row for the cleaner: the name column and the remaining
field values. -/
structure CsvRow where
  name : String
  fields : List String
deriving DecidableEq

/-- A per-category cleaning rule.  The compiled `drop_if_name_regex`
patterns (case-insensitive regex search, external library code) are
abstract predicates. -/
structure CleanRules where
  drop_if_name_contains : List String := []
  drop_if_name_regex : List (String → Bool) := []

/-- Case-insensitive substring containment, the effect of searching with
the `re.IGNORECASE`-compiled alternation of escaped substrings. -/
def ciContains (name sub : String) : Bool := strContains (pyLower name) (pyLower sub)

/-- The drop mask of `clean_csv` for one row: start from `False`, OR in the
combined contains-pattern hit when the substring list is non-empty, then OR
in each regex hit in turn. -/
def rowMask (rules : CleanRules) (name : String) : Bool :=
  let m := false
  let m :=
    if rules.drop_if_name_contains.isEmpty then m
    else m || rules.drop_if_name_contains.any (fun sub => ciContains name sub)
  rules.drop_if_name_regex.foldl (fun acc rgx => acc || rgx name) m

/-- `clean_csv` row filtering: keep exactly the rows the mask does not
drop, order and content untouched (`df[~mask]`). -/
def cleanRows (rules : CleanRules) (rows : List CsvRow) : List CsvRow :=
  rows.filter (fun r => !rowMask rules r.name)

/-- The per-category branch of `run_clean`: with no configured rule the
file is copied byte-for-byte (identity on the rows); otherwise
`clean_csv` filters. -/
def runCleanPart : Option CleanRules → List CsvRow → List CsvRow
  | none, rows => rows
  | some rules, rows => cleanRows rules rows

/-! ## Dictionary and fold lemmas -/

theorem dictGet_cons (k k' : String) (v : SpecVal) (d : Dict) :
    dictGet ((k', v) :: d) k = if k' = k then some v else dictGet d k := rfl

theorem applySegPats_cons (out : Dict) (seg : String) (p : Pat) (rest : List Pat) :
    applySegPats out seg (p :: rest)
      = applySegPats (if matchesPat seg p then applyPat out seg p else out) seg rest := rfl

theorem applySegPats_append (out : Dict) (seg : String) (l₁ l₂ : List Pat) :
    applySegPats out seg (l₁ ++ l₂) = applySegPats (applySegPats out seg l₁) seg l₂ :=
  List.foldl_append _ _ _ _

/-- If no matching pattern of the list writes key `k`, the pattern pass
leaves the value of `k` untouched. -/
theorem applySegPats_get_of_no_write (seg : String) :
    ∀ (pats : List Pat) (out : Dict) (k : String),
    (∀ p ∈ pats, matchesPat seg p = true → p.key ≠ k) →
    dictGet (applySegPats out seg pats) k = dictGet out k := by
  intro pats
  induction pats with
  | nil => intro out k _; rfl
  | cons p rest ih =>
    intro out k h
    rw [applySegPats_cons, ih _ k (fun q hq => h q (List.mem_cons_of_mem _ hq))]
    by_cases hm : matchesPat seg p = true
    · rw [if_pos hm]
      have hk : p.key ≠ k := h p (List.mem_cons_self _ _) hm
      simp [applyPat, dictGet, alistGet, hk]
    · rw [if_neg hm]

/-- If some matching pattern of the list writes key `k`, the value of `k`
after the pattern pass does not depend on the incoming dictionary. -/
theorem applySegPats_get_indep (seg : String) :
    ∀ (pats : List Pat) (out out' : Dict) (k : String),
    (∃ p ∈ pats, matchesPat seg p = true ∧ p.key = k) →
    dictGet (applySegPats out seg pats) k = dictGet (applySegPats out' seg pats) k := by
  intro pats
  induction pats with
  | nil =>
    intro out out' k h
    exact absurd h (by simp)
  | cons p rest ih =>
    intro out out' k h
    by_cases hrest : ∃ q ∈ rest, matchesPat seg q = true ∧ q.key = k
    · rw [applySegPats_cons, applySegPats_cons]
      exact ih _ _ k hrest
    · obtain ⟨q, hq, hm, hk⟩ := h
      rcases List.mem_cons.mp hq with rfl | hq'
      · have hnw : ∀ r ∈ rest, matchesPat seg r = true → r.key ≠ k := by
          intro r hr hmr hkr
          exact hrest ⟨r, hr, hmr, hkr⟩
        rw [applySegPats_cons, applySegPats_cons, if_pos hm, if_pos hm,
          applySegPats_get_of_no_write seg rest _ k hnw,
          applySegPats_get_of_no_write seg rest _ k hnw]
        simp [applyPat, dictGet, alistGet, hk]
      · exact absurd ⟨q, hq', hm, hk⟩ hrest

theorem nonColonPass_cons (pats : List Pat) (init : Dict) (seg : String) (rest : List String) :
    nonColonPass pats init (seg :: rest)
      = nonColonPass pats
          (if strContains seg ":" then init else applySegPats init seg pats) rest := by
  simp only [nonColonPass, List.foldl_cons]

/-- If no segment lets a matching pattern write key `k`, the positional
pass leaves the value of `k` untouched. -/
theorem nonColonPass_get_of_no_write (pats : List Pat) (k : String) :
    ∀ (segs : List String) (init : Dict),
    (∀ seg ∈ segs, strContains seg ":" = true ∨
      ∀ p ∈ pats, matchesPat seg p = true → p.key ≠ k) →
    dictGet (nonColonPass pats init segs) k = dictGet init k := by
  intro segs
  induction segs with
  | nil => intro init _; rfl
  | cons seg rest ih =>
    intro init h
    rw [nonColonPass_cons, ih _ (fun s hs => h s (List.mem_cons_of_mem _ hs))]
    rcases h seg (List.mem_cons_self _ _) with hc | hnw
    · rw [if_pos hc]
    · by_cases hc : strContains seg ":" = true
      · rw [if_pos hc]
      · rw [if_neg hc]
        exact applySegPats_get_of_no_write seg pats init k hnw

/-- If some colon-free segment lets a matching pattern write key `k`, the
value of `k` after the positional pass does not depend on the incoming
dictionary. -/
theorem nonColonPass_get_indep (pats : List Pat) (k : String) :
    ∀ (segs : List String) (init init' : Dict),
    (∃ seg ∈ segs, strContains seg ":" = false ∧
      ∃ p ∈ pats, matchesPat seg p = true ∧ p.key = k) →
    dictGet (nonColonPass pats init segs) k = dictGet (nonColonPass pats init' segs) k := by
  intro segs
  induction segs with
  | nil =>
    intro init init' h
    exact absurd h (by simp)
  | cons seg rest ih =>
    intro init init' h
    by_cases hrest : ∃ s ∈ rest, strContains s ":" = false ∧
        ∃ p ∈ pats, matchesPat s p = true ∧ p.key = k
    · rw [nonColonPass_cons, nonColonPass_cons]
      exact ih _ _ hrest
    · obtain ⟨s, hs, hnc, hw⟩ := h
      rcases List.mem_cons.mp hs with rfl | hs'
      · have hnw : ∀ t ∈ rest, strContains t ":" = true ∨
            ∀ p ∈ pats, matchesPat t p = true → p.key ≠ k := by
          intro t ht
          by_cases htc : strContains t ":" = true
          · exact Or.inl htc
          · refine Or.inr fun p hp hm hk => hrest ⟨t, ht, ?_, p, hp, hm, hk⟩
            simpa using htc
        rw [nonColonPass_cons, nonColonPass_cons,
          nonColonPass_get_of_no_write pats k rest _ hnw,
          nonColonPass_get_of_no_write pats k rest _ hnw]
        rw [if_neg (by simp [hnc]), if_neg (by simp [hnc])]
        exact applySegPats_get_indep s pats init init' k hw
      · exact absurd ⟨s, hs', hnc, hw⟩ hrest

/-! ## C4 — positional patterns: no short-circuit, later pattern wins -/

/-- C4: on a positional segment every `positional_patterns` entry is
evaluated in declared order and every matching one is applied; hence for
any decomposition of the pattern list around a matching pattern `p` such
that no later pattern with the same key also matches, the final value of
`p.key` is exactly `p`'s extracted output — in particular, when several
matching patterns write one key, the last-declared matching pattern's
output is the final value and there is no first-match short-circuit. -/
theorem positional_patterns_no_short_circuit (out : Dict) (seg : String)
    (pre post : List Pat) (p : Pat)
    (hp : matchesPat seg p = true)
    (hpost : ∀ q ∈ post, q.key = p.key → matchesPat seg q = false) :
    dictGet (applySegPats out seg (pre ++ p :: post)) p.key = some (patValue seg p) := by
  rw [applySegPats_append, applySegPats_cons, if_pos hp]
  rw [applySegPats_get_of_no_write seg post _ p.key
    (fun q hq hm hk => by simp [hpost q hq hk] at hm)]
  simp [applyPat, dictGet, alistGet]

/-- Witness for C4, realizing the spec's later-rule-overwrite scenario:
two patterns both match the segment and target the same key; the result
holds the later pattern's output. -/
theorem positional_patterns_no_short_circuit_witness :
    matchesPat "DDR5 32GB" { key := "mem", contains := some "DDR5" } = true ∧
    dictGet
      (applySegPats [] "DDR5 32GB"
        ([{ key := "mem", contains := some "GB", split_on := some " " }] ++
          { key := "mem", contains := some "DDR5" } :: []))
      "mem" = some (SpecVal.s "DDR5 32GB") := by
  refine ⟨rfl, ?_⟩
  have h := positional_patterns_no_short_circuit [] "DDR5 32GB"
    [{ key := "mem", contains := some "GB", split_on := some " " }] []
    { key := "mem", contains := some "DDR5" } rfl (by intro q hq; simp at hq)
  simpa using h

/-! ## C5 — colon-style segment extraction -/

/-- C5: a colon-bearing segment is split on its first colon only; when the
trimmed label is a configured raw label the canonical key is written with a
comma-split trimmed list exactly when the raw value contains a comma and
with the trimmed scalar otherwise (no other key changes); when the label is
not configured the segment contributes nothing and raises no error. -/
theorem colon_segment_extraction (ck : List (String × String)) (res : Dict)
    (seg kraw vraw : String)
    (hsplit : colonSplit seg = some (kraw, vraw)) :
    (alistGet ck kraw = none → applyColonSeg ck res seg = res) ∧
    (∀ ek, alistGet ck kraw = some ek →
      (strContains vraw "," = true →
        dictGet (applyColonSeg ck res seg) ek
          = some (SpecVal.l ((pySplit vraw ",").map pyStrip))) ∧
      (strContains vraw "," = false →
        dictGet (applyColonSeg ck res seg) ek = some (SpecVal.s (pyStrip vraw))) ∧
      (∀ k', k' ≠ ek → dictGet (applyColonSeg ck res seg) k' = dictGet res k')) := by
  constructor
  · intro hnone
    simp [applyColonSeg, hsplit, hnone]
  · intro ek hek
    refine ⟨?_, ?_, ?_⟩
    · intro hc
      simp [applyColonSeg, hsplit, hek, hc, dictGet, alistGet]
    · intro hc
      simp [applyColonSeg, hsplit, hek, hc, dictGet, alistGet]
    · intro k' hk'
      simp only [applyColonSeg, hsplit, hek]
      simp [dictGet, alistGet, Ne.symm hk']

/-- Witness for C5, the spec's round-trip examples: `"용량: 256GB, 512GB"`
yields the list `["256GB", "512GB"]` under key `capacity`, and
`"소켓: LGA1700"` yields the scalar `"LGA1700"` under key `socket`. -/
theorem colon_segment_extraction_witness :
    colonSplit "용량: 256GB, 512GB" = some ("용량", "256GB, 512GB") ∧
    dictGet (applyColonSeg [("용량", "capacity")] [] "용량: 256GB, 512GB") "capacity"
      = some (SpecVal.l ["256GB", "512GB"]) ∧
    dictGet (applyColonSeg [("소켓", "socket")] [] "소켓: LGA1700") "socket"
      = some (SpecVal.s "LGA1700") := by
  refine ⟨rfl, ?_, ?_⟩
  · have h := (colon_segment_extraction [("용량", "capacity")] []
      "용량: 256GB, 512GB" "용량" "256GB, 512GB" rfl).2 "capacity" rfl
    exact (h.1 rfl).trans (by decide)
  · have h := (colon_segment_extraction [("소켓", "socket")] []
      "소켓: LGA1700" "소켓" "LGA1700" rfl).2 "socket" rfl
    exact ((h.2).1 rfl).trans (by decide)

/-! ## C1 — cross-segment collision order (corrected) -/

/-- Rules used by the C1 scenario: one colon key and one positional
pattern writing the same canonical key `k`. -/
def c1rules : SpecRules :=
  { colon_keys := [("소켓", "k")]
    non_colon_patterns := [{ key := "k", contains := some "AAA" }] }

/-- Counterexample to C1 as stated: with segments `["AAA", "소켓: S1"]`,
the positional segment comes first and the colon segment last, so a
single-pass, segment-ordered engine (the spec's description, modelled by
`applyRulesSpecOrder`) would let the later colon segment win with `"S1"`;
the code's engine (`applyRules`) runs its colon pass first and its
positional pass second, so the earlier positional segment wins with
`"AAA"`.  A firing rule in a later segment therefore does not always
override one in an earlier segment. -/
theorem applyRules_cross_style_order_cex :
    dictGet (applyRules ["AAA", "소켓: S1"] c1rules) "k" = some (SpecVal.s "AAA") ∧
    dictGet (applyRulesSpecOrder ["AAA", "소켓: S1"] c1rules) "k"
      = some (SpecVal.s "S1") ∧
    (SpecVal.s "AAA" ≠ SpecVal.s "S1") := by
  refine ⟨rfl, rfl, by decide⟩

/-- C1 (amended): canonical-key collisions resolve by last-write-wins
*within each style pass*, and the two passes run in a fixed order — all
colon-style writes first, then all positional writes.  Consequently, if
any colon-free segment fires a positional pattern on key `k`, the final
value of `k` is the one produced by the positional pass alone (independent
of every colon-style write, regardless of segment positions); and if no
positional pattern fires on `k`, the final value of `k` is the one
produced by the colon pass alone. -/
theorem applyRules_colon_then_positional (rules : SpecRules) (segs : List String)
    (k : String) :
    ((∃ seg ∈ segs, strContains seg ":" = false ∧
        ∃ p ∈ rules.non_colon_patterns, matchesPat seg p = true ∧ p.key = k) →
      dictGet (applyRules segs rules) k
        = dictGet (nonColonPass rules.non_colon_patterns [] segs) k) ∧
    ((∀ seg ∈ segs, strContains seg ":" = true ∨
        ∀ p ∈ rules.non_colon_patterns, matchesPat seg p = true → p.key ≠ k) →
      dictGet (applyRules segs rules) k
        = dictGet (colonPass rules.colon_keys [] segs) k) := by
  constructor
  · intro h
    exact nonColonPass_get_indep rules.non_colon_patterns k segs _ [] h
  · intro h
    exact nonColonPass_get_of_no_write rules.non_colon_patterns k segs _ h

/-- Witness for C1 (amended) at the counterexample's input: the positional
pattern fires on segment `"AAA"`, so the final value of `"k"` is the
positional pass's value `"AAA"` even though the colon segment comes later. -/
theorem applyRules_colon_then_positional_witness :
    (∃ seg ∈ ["AAA", "소켓: S1"], strContains seg ":" = false ∧
      ∃ p ∈ c1rules.non_colon_patterns, matchesPat seg p = true ∧ p.key = "k") ∧
    dictGet (applyRules ["AAA", "소켓: S1"] c1rules) "k"
      = dictGet (nonColonPass c1rules.non_colon_patterns [] ["AAA", "소켓: S1"]) "k" := by
  have hex : ∃ seg ∈ ["AAA", "소켓: S1"], strContains seg ":" = false ∧
      ∃ p ∈ c1rules.non_colon_patterns, matchesPat seg p = true ∧ p.key = "k" := by
    refine ⟨"AAA", by simp, by decide, ?_⟩
    exact ⟨{ key := "k", contains := some "AAA" }, by simp [c1rules], rfl, rfl⟩
  exact ⟨hex, (applyRules_colon_then_positional c1rules ["AAA", "소켓: S1"] "k").1 hex⟩

/-! ## C3 — row-level extraction exception (corrected) -/

/-- Counterexample to C3 as stated: in a batch of three rows whose middle
row has the non-integer ID `"abc"`, the two well-formed rows each parse on
their own, yet the batch run returns the extraction error instead of
emitting the remaining rows — the `__main__` loop has no exception
handler, so the malformed row aborts the batch rather than being skipped. -/
theorem runBatch_malformed_row_cex :
    runBatch {}
        [⟨"1", "n1", "", "", ""⟩, ⟨"abc", "n2", "", "", ""⟩, ⟨"2", "n3", "", "", ""⟩]
      = Except.error "abc" ∧
    (∃ v, parseRow {} ⟨"1", "n1", "", "", ""⟩ = Except.ok v) ∧
    (∃ v, parseRow {} ⟨"2", "n3", "", "", ""⟩ = Except.ok v) :=
  ⟨rfl, ⟨_, rfl⟩, ⟨_, rfl⟩⟩

/-- C3 (amended): a row-level extraction exception (malformed row, e.g. a
non-integer ID) is not caught: the batch run propagates the first failing
row's error and aborts, emitting no records — the rows after the failing
one are never parsed into the output. -/
theorem runBatch_first_error_aborts (cfg : ParserCfg) :
    ∀ (pre post : List RawRow) (bad : RawRow) (e : String),
    (∀ r ∈ pre, ∃ v, parseRow cfg r = Except.ok v) →
    parseRow cfg bad = Except.error e →
    runBatch cfg (pre ++ bad :: post) = Except.error e := by
  intro pre
  induction pre with
  | nil =>
    intro post bad e _ hbad
    simp [runBatch, hbad]
  | cons r rest ih =>
    intro post bad e hpre hbad
    obtain ⟨v, hv⟩ := hpre r (List.mem_cons_self _ _)
    have htail := ih post bad e (fun s hs => hpre s (List.mem_cons_of_mem _ hs)) hbad
    simp [runBatch, hv, htail]

/-- Witness for C3 (amended) at the counterexample's batch. -/
theorem runBatch_first_error_aborts_witness :
    (∀ r ∈ [(⟨"1", "n1", "", "", ""⟩ : RawRow)], ∃ v, parseRow {} r = Except.ok v) ∧
    parseRow {} (⟨"abc", "n2", "", "", ""⟩ : RawRow) = Except.error "abc" ∧
    runBatch {}
        ([⟨"1", "n1", "", "", ""⟩] ++ ⟨"abc", "n2", "", "", ""⟩ :: [⟨"2", "n3", "", "", ""⟩])
      = Except.error "abc" := by
  have hpre : ∀ r ∈ [(⟨"1", "n1", "", "", ""⟩ : RawRow)], ∃ v, parseRow {} r = Except.ok v := by
    intro r hr
    simp only [List.mem_singleton] at hr
    subst hr
    exact ⟨_, rfl⟩
  exact ⟨hpre, rfl,
    runBatch_first_error_aborts {} [⟨"1", "n1", "", "", ""⟩] [⟨"2", "n3", "", "", ""⟩]
      ⟨"abc", "n2", "", "", ""⟩ "abc" hpre rfl⟩

/-! ## C2 — price/stock join -/

/-- Unfolding of the price-map fold: the map is the reversed feed filtered
to its parseable rows, in front of the fold's initial map. -/
theorem loadPriceMap_foldl (rows : List PriceRow) :
    ∀ init : List (Int × Int),
    rows.foldl
        (fun m r =>
          match parsePrice r.price with
          | some v => (r.id, v) :: m
          | none => m)
        init
      = (rows.reverse.filterMap
          (fun r => (parsePrice r.price).map (fun v => (r.id, v)))) ++ init := by
  induction rows with
  | nil => intro init; simp
  | cons r rest ih =>
    intro init
    rw [List.foldl_cons, ih]
    cases h : parsePrice r.price with
    | none => simp [h, List.filterMap_append]
    | some v => simp [h, List.filterMap_append]

/-- A hit in the parseable-row projection of a feed is exactly a feed row
with that id and a parseable price. -/
theorem alistGet_parseable_isSome (k : Int) :
    ∀ rows : List PriceRow,
    (alistGet (rows.filterMap
        (fun r => (parsePrice r.price).map (fun v => (r.id, v)))) k).isSome = true ↔
      ∃ r ∈ rows, r.id = k ∧ (parsePrice r.price).isSome = true := by
  intro rows
  induction rows with
  | nil => simp [alistGet]
  | cons r rest ih =>
    cases h : parsePrice r.price with
    | none =>
      simp only [List.filterMap_cons, h, Option.map_none']
      rw [ih]
      constructor
      · intro ⟨s, hs, hid, hp⟩
        exact ⟨s, List.mem_cons_of_mem _ hs, hid, hp⟩
      · intro ⟨s, hs, hid, hp⟩
        rcases List.mem_cons.mp hs with rfl | hs'
        · rw [h] at hp; simp at hp
        · exact ⟨s, hs', hid, hp⟩
    | some v =>
      simp only [List.filterMap_cons, h, Option.map_some']
      by_cases hid : r.id = k
      · simp only [alistGet, if_pos hid]
        simp only [Option.isSome_some, true_iff]
        exact ⟨r, List.mem_cons_self _ _, hid, by rw [h]; rfl⟩
      · simp only [alistGet, if_neg hid]
        rw [ih]
        constructor
        · intro ⟨s, hs, hsid, hp⟩
          exact ⟨s, List.mem_cons_of_mem _ hs, hsid, hp⟩
        · intro ⟨s, hs, hsid, hp⟩
          rcases List.mem_cons.mp hs with rfl | hs'
          · exact absurd hsid hid
          · exact ⟨s, hs', hsid, hp⟩

/-- C2: after the price/stock join, a record is in stock iff its id has a
parseable price entry in the feed (the lookup keeps only rows whose price
parses; unparseable rows are excluded, not zeroed); an id absent from the
lookup gets `price = none` and `in_stock = false`; a present id gets the
looked-up integer and `in_stock = true`. -/
theorem price_stock_join_spec (rows : List PriceRow) (p : Product) :
    ((updatePriceStock (loadPriceMap rows) p).in_stock = true ↔
      ∃ r ∈ rows, r.id = p.id ∧ (parsePrice r.price).isSome = true) ∧
    (alistGet (loadPriceMap rows) p.id = none →
      (updatePriceStock (loadPriceMap rows) p).price = none ∧
      (updatePriceStock (loadPriceMap rows) p).in_stock = false) ∧
    (∀ v, alistGet (loadPriceMap rows) p.id = some v →
      (updatePriceStock (loadPriceMap rows) p).price = some v ∧
      (updatePriceStock (loadPriceMap rows) p).in_stock = true) := by
  have hmap : loadPriceMap rows
      = rows.reverse.filterMap
          (fun r => (parsePrice r.price).map (fun v => (r.id, v))) := by
    rw [loadPriceMap, loadPriceMap_foldl rows []]
    simp
  refine ⟨?_, ?_, ?_⟩
  · show (alistGet (loadPriceMap rows) p.id).isSome = true ↔ _
    rw [hmap, alistGet_parseable_isSome p.id rows.reverse]
    constructor
    · intro ⟨r, hr, h⟩
      exact ⟨r, List.mem_reverse.mp hr, h⟩
    · intro ⟨r, hr, h⟩
      exact ⟨r, List.mem_reverse.mpr hr, h⟩
  · intro hnone
    exact ⟨hnone, by show (alistGet (loadPriceMap rows) p.id).isSome = false; rw [hnone]; rfl⟩
  · intro v hv
    exact ⟨hv, by show (alistGet (loadPriceMap rows) p.id).isSome = true; rw [hv]; rfl⟩

/-- Witness for C2, the spec's example: a feed row with id 1 and price
`"1234"` and a row with unparseable price; the record with id 1 ends up
with `price = 1234, in_stock = true`. -/
theorem price_stock_join_spec_witness :
    alistGet (loadPriceMap [⟨1, "1234"⟩, ⟨2, "abc"⟩]) (1 : Int) = some 1234 ∧
    (updatePriceStock (loadPriceMap [⟨1, "1234"⟩, ⟨2, "abc"⟩])
        { id := 1, name := "cpu" }).price = some 1234 ∧
    (updatePriceStock (loadPriceMap [⟨1, "1234"⟩, ⟨2, "abc"⟩])
        { id := 1, name := "cpu" }).in_stock = true := by
  refine ⟨rfl, ?_⟩
  have h := (price_stock_join_spec [⟨1, "1234"⟩, ⟨2, "abc"⟩]
    { id := 1, name := "cpu" }).2.2 1234 rfl
  exact h

/-! ## C6 — zero-metric suppression -/

/-- A score write never touches a key that does not occur in the score
row. -/
theorem updateNonzero_get_of_not_mem (k : String) :
    ∀ (scores : List (String × Int)) (spec : Dict),
    k ∉ scores.map Prod.fst →
    dictGet (updateNonzero spec scores) k = dictGet spec k := by
  intro scores
  induction scores with
  | nil => intro spec _; rfl
  | cons kv rest ih =>
    intro spec h
    simp only [List.map_cons, List.mem_cons] at h
    push_neg at h
    obtain ⟨hkk, hrest⟩ := h
    have hstep : updateNonzero spec (kv :: rest)
        = updateNonzero
            (if kv.2 ≠ 0 then (kv.1, SpecVal.s (toString kv.2)) :: spec else spec)
            rest := rfl
    rw [hstep, ih _ hrest]
    by_cases hz : kv.2 ≠ 0
    · rw [if_pos hz]
      simp [dictGet, alistGet, Ne.symm hkk]
    · rw [if_neg hz]

/-- C6: after a benchmark score write (the shared step of the CPU and GPU
attachments), a metric whose feed value is `0` is filtered out — it never
appears and never overwrites the existing value of its key — while a
metric with a nonzero feed value is written as its decimal string. -/
theorem benchmark_zero_suppression :
    ∀ (scores : List (String × Int)) (spec : Dict) (k : String) (v : Int),
    (scores.map Prod.fst).Nodup → (k, v) ∈ scores →
    (v = 0 → dictGet (updateNonzero spec scores) k = dictGet spec k) ∧
    (v ≠ 0 → dictGet (updateNonzero spec scores) k = some (SpecVal.s (toString v))) := by
  intro scores
  induction scores with
  | nil =>
    intro spec k v _ hmem
    simp at hmem
  | cons kv rest ih =>
    intro spec k v hnd hmem
    simp only [List.map_cons, List.nodup_cons] at hnd
    obtain ⟨hk1, hnd'⟩ := hnd
    have hstep : updateNonzero spec (kv :: rest)
        = updateNonzero
            (if kv.2 ≠ 0 then (kv.1, SpecVal.s (toString kv.2)) :: spec else spec)
            rest := rfl
    rcases List.mem_cons.mp hmem with heq | hmem'
    · have hk : kv.1 = k := by rw [← heq]
      have hv : kv.2 = v := by rw [← heq]
      have hnotin : k ∉ rest.map Prod.fst := by rw [← hk]; exact hk1
      constructor
      · intro hz
        rw [hstep, updateNonzero_get_of_not_mem k rest _ hnotin,
          if_neg (by rw [hv]; simp [hz])]
      · intro hz
        rw [hstep, updateNonzero_get_of_not_mem k rest _ hnotin,
          if_pos (by rw [hv]; exact hz)]
        simp [dictGet, alistGet, hk, hv]
    · have hkmem : k ∈ rest.map Prod.fst := List.mem_map.mpr ⟨(k, v), hmem', rfl⟩
      have hkk : kv.1 ≠ k := fun h => hk1 (h ▸ hkmem)
      constructor
      · intro hz
        rw [hstep, (ih _ k v hnd' hmem').1 hz]
        by_cases h2 : kv.2 ≠ 0
        · rw [if_pos h2]
          simp [dictGet, alistGet, hkk]
        · rw [if_neg h2]
      · intro hz
        rw [hstep]
        exact (ih _ k v hnd' hmem').2 hz

/-- Witness for C6: the feed row carries metric `m` with value 0 and
metric `n` with value 5; after the write the spec still holds its old
value for `m` and holds `"5"` for `n`. -/
theorem benchmark_zero_suppression_witness :
    (([("m", (0 : Int)), ("n", 5)].map Prod.fst).Nodup) ∧
    (("m", (0 : Int)) ∈ [("m", (0 : Int)), ("n", 5)]) ∧
    dictGet (updateNonzero [("m", SpecVal.s "7")] [("m", 0), ("n", 5)]) "m"
      = some (SpecVal.s "7") ∧
    dictGet (updateNonzero [("m", SpecVal.s "7")] [("m", 0), ("n", 5)]) "n"
      = some (SpecVal.s "5") := by
  refine ⟨by decide, by decide, ?_, ?_⟩
  · exact ((benchmark_zero_suppression [("m", 0), ("n", 5)] [("m", SpecVal.s "7")]
      "m" 0 (by decide) (by decide)).1 rfl).trans rfl
  · exact ((benchmark_zero_suppression [("m", 0), ("n", 5)] [("m", SpecVal.s "7")]
      "n" 5 (by decide) (by decide)).2 (by decide)).trans (by decide)

/-! ## C7 — GPU benchmark join is first-match over feed order -/

/-- Rows that do not match are skipped by the scan. -/
theorem gpuFind_append_of_no_match (c m : String) :
    ∀ (pre rest : BenchMap),
    (∀ r ∈ pre, gpuRowMatches c m r.1 = false) →
    gpuFind (pre ++ rest) c m = gpuFind rest c m := by
  intro pre
  induction pre with
  | nil => intro rest _; rfl
  | cons r tail ih =>
    intro rest h
    have hr := h r (List.mem_cons_self _ _)
    show (if gpuRowMatches c m r.1 then some r.2 else gpuFind (tail ++ rest) c m) = _
    rw [if_neg (by simp [hr]), ih rest (fun s hs => h s (List.mem_cons_of_mem _ hs))]

/-- C7: the GPU join scans benchmark rows in feed order and accepts the
first row matching the record's (chipset, memory-token) key, then stops:
whenever every row before some matching row fails to match, the scan
returns that row's scores no matter what follows it — later rows
satisfying the same key are never used — and the record's spec is updated
with exactly that row's scores. -/
theorem gpu_join_first_match (pre post : BenchMap) (name : String)
    (scores : List (String × Int)) (c m : String)
    (hpre : ∀ r ∈ pre, gpuRowMatches c m r.1 = false)
    (hmatch : gpuRowMatches c m name = true) :
    gpuFind (pre ++ (name, scores) :: post) c m = some scores ∧
    (∀ spec : Dict,
      pyLower (pyStrip (getStrD spec "chipset")) = c →
      pyStrip (getStrD spec "memory_capacity") = m →
      attachGpuSpec (pre ++ (name, scores) :: post) spec = updateNonzero spec scores) := by
  have hfind : gpuFind (pre ++ (name, scores) :: post) c m = some scores := by
    rw [gpuFind_append_of_no_match c m pre _ hpre]
    show (if gpuRowMatches c m name then some scores else _) = some scores
    rw [if_pos hmatch]
  refine ⟨hfind, ?_⟩
  intro spec hc hm
  show (match gpuFind (pre ++ (name, scores) :: post)
          (pyLower (pyStrip (getStrD spec "chipset")))
          (pyStrip (getStrD spec "memory_capacity")) with
        | some sc => updateNonzero spec sc
        | none => spec) = updateNonzero spec scores
  rw [hc, hm, hfind]

/-- Witness for C7: the feed holds a non-matching row, then two rows with
the identical display key `GeForce RTX 4070 (12GB)` but different scores;
the scan returns the first one's scores (100, not 999) and the record's
spec receives exactly those. -/
theorem gpu_join_first_match_witness :
    (∀ r ∈ [(("Radeon RX 7600 (8GB)", [("3d_mark", (50 : Int))]) : String × List (String × Int))],
      gpuRowMatches "geforce rtx 4070" "12GB" r.1 = false) ∧
    gpuRowMatches "geforce rtx 4070" "12GB" "GeForce RTX 4070 (12GB)" = true ∧
    gpuFind
        ([("Radeon RX 7600 (8GB)", [("3d_mark", 50)])] ++
          ("GeForce RTX 4070 (12GB)", [("3d_mark", 100)]) ::
            [("GeForce RTX 4070 (12GB)", [("3d_mark", 999)])])
        "geforce rtx 4070" "12GB" = some [("3d_mark", 100)] ∧
    attachGpuSpec
        ([("Radeon RX 7600 (8GB)", [("3d_mark", 50)])] ++
          ("GeForce RTX 4070 (12GB)", [("3d_mark", 100)]) ::
            [("GeForce RTX 4070 (12GB)", [("3d_mark", 999)])])
        [("chipset", SpecVal.s "GeForce RTX 4070"), ("memory_capacity", SpecVal.s "12GB")]
      = updateNonzero
          [("chipset", SpecVal.s "GeForce RTX 4070"), ("memory_capacity", SpecVal.s "12GB")]
          [("3d_mark", 100)] := by
  have hpre : ∀ r ∈ [(("Radeon RX 7600 (8GB)", [("3d_mark", (50 : Int))]) : String × List (String × Int))],
      gpuRowMatches "geforce rtx 4070" "12GB" r.1 = false := by
    intro r hr
    simp only [List.mem_singleton] at hr
    subst hr
    rfl
  have h := gpu_join_first_match [("Radeon RX 7600 (8GB)", [("3d_mark", 50)])]
    [("GeForce RTX 4070 (12GB)", [("3d_mark", 999)])]
    "GeForce RTX 4070 (12GB)" [("3d_mark", 100)]
    "geforce rtx 4070" "12GB" hpre rfl
  exact ⟨hpre, rfl, h.1, h.2 _ rfl rfl⟩

/-! ## C8 — cleaning filter -/

/-- OR-folding the regex hits over an accumulator is the accumulator ORed
with "any regex hits". -/
theorem foldl_or_any (name : String) :
    ∀ (l : List (String → Bool)) (b : Bool),
    l.foldl (fun acc rgx => acc || rgx name) b = (b || l.any (fun rgx => rgx name)) := by
  intro l
  induction l with
  | nil => intro b; simp
  | cons r rest ih =>
    intro b
    rw [List.foldl_cons, ih]
    simp [Bool.or_assoc]

/-- The drop mask hits iff some configured substring occurs
(case-insensitively) in the name or some configured regex matches it. -/
theorem rowMask_iff (rules : CleanRules) (name : String) :
    rowMask rules name = true ↔
      (∃ sub ∈ rules.drop_if_name_contains, ciContains name sub = true) ∨
      (∃ rgx ∈ rules.drop_if_name_regex, rgx name = true) := by
  simp only [rowMask]
  rw [foldl_or_any]
  by_cases hemp : rules.drop_if_name_contains.isEmpty
  · rw [if_pos hemp]
    rw [List.isEmpty_iff] at hemp
    simp [hemp, List.any_eq_true]
  · rw [if_neg hemp]
    simp [List.any_eq_true]

/-- C8: a row is dropped iff its name case-insensitively contains some
configured substring OR matches some configured regex (boolean OR across
the whole rule set); with an empty regex set the mask is the contains
condition alone, so no row is ever dropped on the regex branch; the
retained rows are an order-preserving sublist of the input, each row
unchanged field-for-field; and a category with no configured rule passes
every row through unchanged. -/
theorem cleaning_drop_iff (rules : CleanRules) (rows : List CsvRow) (r : CsvRow) :
    (r ∈ cleanRows rules rows ↔ r ∈ rows ∧
      ¬((∃ sub ∈ rules.drop_if_name_contains, ciContains r.name sub = true) ∨
        (∃ rgx ∈ rules.drop_if_name_regex, rgx r.name = true))) ∧
    (rules.drop_if_name_regex = [] →
      (rowMask rules r.name = true ↔
        ∃ sub ∈ rules.drop_if_name_contains, ciContains r.name sub = true)) ∧
    List.Sublist (cleanRows rules rows) rows ∧
    runCleanPart none rows = rows := by
  refine ⟨?_, ?_, List.filter_sublist _, rfl⟩
  · rw [cleanRows, List.mem_filter, ← rowMask_iff rules r.name]
    simp
  · intro hreg
    rw [rowMask_iff]
    simp [hreg]

/-- Witness for C8: one substring rule, no regexes; the row whose name
contains the substring is dropped, the other row is retained unchanged. -/
theorem cleaning_drop_iff_witness :
    (({ drop_if_name_contains := ["해외"] } : CleanRules).drop_if_name_regex = []) ∧
    (rowMask { drop_if_name_contains := ["해외"] } "해외 CPU" = true ↔
      ∃ sub ∈ ["해외"], ciContains "해외 CPU" sub = true) ∧
    cleanRows { drop_if_name_contains := ["해외"] }
        [⟨"해외 CPU", ["1"]⟩, ⟨"국내 CPU", ["2"]⟩]
      = [⟨"국내 CPU", ["2"]⟩] := by
  refine ⟨rfl, ?_, rfl⟩
  exact (cleaning_drop_iff { drop_if_name_contains := ["해외"] }
    [⟨"해외 CPU", ["1"]⟩, ⟨"국내 CPU", ["2"]⟩] ⟨"해외 CPU", ["1"]⟩).2.1 rfl

/-! ## C9 — name extraction order and overwrite -/

theorem nameFold_append (out : Dict) (l₁ l₂ : List NameRule) (text : String) :
    nameFold out (l₁ ++ l₂) text = nameFold (nameFold out l₁ text) l₂ text :=
  List.foldl_append _ _ _ _

theorem nameFold_cons (out : Dict) (r : NameRule) (rest : List NameRule) (text : String) :
    nameFold out (r :: rest) text
      = nameFold
          (match r.search text with
           | some m => (r.key, SpecVal.s (resolveGroups m r.grp)) :: out
           | none => out)
          rest text := rfl

/-- Rules that never write key `k` on this text leave its value untouched. -/
theorem nameFold_get_of_no_write (text k : String) :
    ∀ (rules : List NameRule) (out : Dict),
    (∀ q ∈ rules, q.key = k → q.search text = none) →
    dictGet (nameFold out rules text) k = dictGet out k := by
  intro rules
  induction rules with
  | nil => intro out _; rfl
  | cons q rest ih =>
    intro out h
    rw [nameFold_cons, ih _ (fun s hs => h s (List.mem_cons_of_mem _ hs))]
    cases hq : q.search text with
    | none => rfl
    | some mm =>
      have hk : q.key ≠ k := by
        intro hkk
        rw [h q (List.mem_cons_self _ _) hkk] at hq
        exact Option.noConfusion hq
      simp [dictGet, alistGet, hk]

/-- C9: name rules are evaluated strictly in declaration order; each
matching rule writes its key, overwriting earlier rules' values (so for a
matching rule after which no later rule with the same key matches, the
final value is that rule's resolved value — a single group index yields
the trimmed group, a list of indices the space-joined then trimmed
groups); a non-matching rule contributes nothing at all. -/
theorem name_rules_order_overwrite (text : String) (pre post : List NameRule)
    (r : NameRule) (m : Nat → String)
    (hm : r.search text = some m)
    (hpost : ∀ q ∈ post, q.key = r.key → q.search text = none) :
    dictGet (parseName (pre ++ r :: post) text) r.key
      = some (SpecVal.s (resolveGroups m r.grp)) ∧
    (∀ (l₁ l₂ : List NameRule) (q : NameRule), q.search text = none →
      parseName (l₁ ++ q :: l₂) text = parseName (l₁ ++ l₂) text) := by
  constructor
  · rw [parseName, nameFold_append, nameFold_cons, hm,
      nameFold_get_of_no_write text r.key post _ hpost]
    simp [dictGet, alistGet]
  · intro l₁ l₂ q hq
    rw [parseName, parseName, nameFold_append, nameFold_append, nameFold_cons, hq]

/-- The match function of the C9 witness rule: it matches exactly the
spec's example name, with capture group 1 `코어i5` and group 2 `14400F`. -/
def c9search : String → Option (Nat → String) := fun t =>
  if t = "인텔 코어i5-14400F" then
    some (fun i => if i = 1 then "코어i5" else if i = 2 then "14400F" else "")
  else none

/-- Witness for C9, the spec's name-rule join example: a rule with
`group = [1, 2]` against `"인텔 코어i5-14400F"` yields the single joined,
trimmed value `"코어i5 14400F"`. -/
theorem name_rules_order_overwrite_witness :
    c9search "인텔 코어i5-14400F"
      = some (fun i => if i = 1 then "코어i5" else if i = 2 then "14400F" else "") ∧
    dictGet
      (parseName [{ key := "model", search := c9search, grp := GroupSel.many [1, 2] }]
        "인텔 코어i5-14400F") "model"
      = some (SpecVal.s "코어i5 14400F") := by
  have hm : c9search "인텔 코어i5-14400F"
      = some (fun i => if i = 1 then "코어i5" else if i = 2 then "14400F" else "") := by
    rw [c9search]
    rw [if_pos rfl]
  refine ⟨hm, ?_⟩
  have h := (name_rules_order_overwrite "인텔 코어i5-14400F" [] []
    { key := "model", search := c9search, grp := GroupSel.many [1, 2] }
    (fun i => if i = 1 then "코어i5" else if i = 2 then "14400F" else "")
    hm (by intro q hq; simp at hq)).1
  exact h.trans (by decide)

/-! ## C10 — the conditional throughput-label rewrite -/

/-- The C10 demonstration spec text: two throughput fragments written with
colons, as in the raw SSD feed. -/
def c10demo : String := "순차읽기: 7450MB/s / 순차쓰기: 6900MB/s"

/-- Spec rules that list the (colon-stripped) throughput label as a colon
key and have no positional patterns. -/
def c10colonOnly : SpecRules :=
  { colon_keys := [("순차읽기", "seq_read"), ("순차쓰기", "seq_write")] }

/-- Spec rules that additionally carry a positional pattern keyed on the
throughput token. -/
def c10withPat : SpecRules :=
  { colon_keys := [("순차읽기", "seq_read"), ("순차쓰기", "seq_write")]
    non_colon_patterns := [{ key := "seq_read", contains := some "순차읽기" }] }

/-- C10: beyond the fixed substitution table and the noise-range
exception, preprocessing has a second conditional rewrite — whenever the
text (after the first two steps) contains `순차읽기`, the trailing colon
of the four throughput labels is removed, so those fragments end up as
positional segments: on the demonstration text the resulting segments are
colon-free, the Segment Rule Engine's colon pass extracts nothing from
them even though `colon_keys` lists the labels, and only a positional
pattern reaches them. -/
theorem seq_throughput_colon_strip (txt : String)
    (h : strContains (noiseStep (applyRepl txt)) "순차읽기" = true) :
    preprocess txt = tagStrip (noiseStep (applyRepl txt)) ∧
    splitSegments (preprocess c10demo) = ["순차읽기 7450Mbs", "순차쓰기 6900Mbs"] ∧
    applyRules (splitSegments (preprocess c10demo)) c10colonOnly = [] ∧
    dictGet (applyRules (splitSegments (preprocess c10demo)) c10withPat) "seq_read"
      = some (SpecVal.s "순차읽기 7450Mbs") := by
  refine ⟨?_, rfl, rfl, rfl⟩
  rw [preprocess]
  simp only [h, if_true]

/-- Witness for C10 at the demonstration text. -/
theorem seq_throughput_colon_strip_witness :
    strContains (noiseStep (applyRepl c10demo)) "순차읽기" = true ∧
    preprocess c10demo = tagStrip (noiseStep (applyRepl c10demo)) := by
  refine ⟨rfl, ?_⟩
  exact (seq_throughput_colon_strip c10demo rfl).1

end Danawa
